import Mathlib

/-!
# Verification of the zproc state server (`zproc/state/server.pyx`)

Shallow embedding of the state server's data model and operations:
`DoubleList`, `ServerData`, and the `StateServer` methods `recv_request`,
`mutate_safely`, `run_fn_atomically`, `recv_watcher`, `solve_watcher`,
`solve_pending_watchers` and `tick`.

Modelling conventions:
* Byte strings (namespaces, identities, watcher ids) are `String`.
* Wall-clock timestamps are IEEE doubles in the source; the verified claims
  use only ordering and equality of timestamps, so they are modelled as `Int`.
* The serializer is an opaque encode/decode boundary per the spec; an encoded
  mutation record `serializer.dumps([old, new, stamp])` is modelled by the
  decoded triple itself (encoding is injective and never inspected).
* Documents (`dict` states) are association lists `List (String × Int)`;
  the claims use only document equality and wholesale replacement.
* The in-place mutation of the document by the user transform is modelled by
  value passing: a transform returns the document after its mutations
  (partial when it raises) together with either a return value or the raised
  error.  Path selection via `glom` is composed into the transform (the spec
  treats path access as a thin convenience; no claim depends on it).
* `defaultdict` is modelled as a total function with the default value, which
  makes lazy materialisation of a namespace entry unobservable (nothing in
  the server iterates over the dict's keys).
* Socket sends and the internal commit steps are recorded in an event trace.
-/

abbrev Bytes := String

/-- A document: the per-namespace mutable `dict` state. -/
abbrev Doc := List (String × Int)

/-- Return type of user transforms (opaque to the server). -/
abbrev Ret := Int

/-- Errors (Python exceptions) carried as messages. -/
abbrev Err := String

/-- The decoded form of `serializer.dumps([old, new, stamp])`. -/
abbrev Payload := Doc × Doc × Int

/-- One mutation record in a namespace's history:
`(self.identity, serializer.dumps([old, new, stamp]))`. -/
structure HRec where
  owner : Bytes
  payload : Payload
deriving DecidableEq, Repr

/-- The timestamp recorded inside a history record's payload. -/
def HRec.stamp (r : HRec) : Int := r.payload.2.2

/-- A pending watch entry: the tuple `(state_id, namespace, only_after)`
stored under the watcher id in the pending dict. -/
structure WatchInfo where
  stateId : Bytes
  wns : Bytes
  onlyAfter : Int
deriving DecidableEq, Repr

/-- Replies sent on the state router. -/
inductive Resp where
  | ret (r : Ret)
  | pingR (info : Int) (pid : Nat)
  | meta (m : Int)
  | timeR (t : Int)
  | err (e : Err)
deriving DecidableEq, Repr

/-- Observable socket sends plus the internal commit steps of
`mutate_safely`, in the order the source performs them. -/
inductive Event where
  | reply (resp : Resp)
  | deliver (watcherId : Bytes) (payload : Payload)
  | appendTimeline (stamp : Int)
  | appendHistory (owner : Bytes) (payload : Payload)
  | solveWatchers
deriving DecidableEq, Repr

/-- `DoubleList`: growable `np.empty(1024)` array with a fill pointer.
`arr` holds the backing array (cells not yet written are `0`, standing for
`np.empty`'s uninitialised cells, which the source never reads). -/
structure DoubleList where
  arr : List Int
  nexti : Nat
deriving DecidableEq, Repr

/-- `DoubleList.__init__`: `self.nexti = 0; self.arr = np.empty(1024)`. -/
def DoubleList.init : DoubleList := ⟨List.replicate 1024 0, 0⟩

/-- `DoubleList.get`: `return self.arr[:self.nexti]` (numpy slicing clamps
to the array length). -/
def DoubleList.get (dl : DoubleList) : List Int := dl.arr.take dl.nexti

/-- `DoubleList.append`, translated faithfully.  When `nexti >= len(arr)`
the source allocates `arr = np.empty(2 * nexti)`, copies `arr[:nexti] =
self.arr`, writes the item into that local array and never assigns it back
to `self.arr`; the copy itself raises a broadcast `ValueError` when
`nexti > len(self.arr)`.  `none` models the raised exception. -/
def DoubleList.append (dl : DoubleList) (item : Int) : Option DoubleList :=
  if dl.nexti ≥ dl.arr.length then
    if dl.nexti = dl.arr.length then
      -- the doubled local array receives the copy and the item, then is
      -- dropped on return: `self.arr` is left untouched
      some ⟨dl.arr, dl.nexti + 1⟩
    else
      -- `arr[:self.nexti] = self.arr` with mismatched lengths: ValueError
      none
  else
    some ⟨dl.arr.set dl.nexti item, dl.nexti + 1⟩

/-- Appending a whole list of items in order (used to describe states the
server reaches after a sequence of accepted mutations). -/
def DoubleList.appendAll (dl : DoubleList) (items : List Int) : Option DoubleList :=
  items.foldlM DoubleList.append dl

/-- One namespace's entry in `ServerData.data`:
the `defaultdict` default is `[{}, DoubleList(), [], {}]`. -/
structure Entry where
  state : Doc
  timeline : DoubleList
  history : List HRec
  pending : List (Bytes × WatchInfo)
deriving DecidableEq, Repr

/-- The `defaultdict` default factory value. -/
def Entry.default : Entry := ⟨[], DoubleList.init, [], []⟩

/-- The whole server: `ServerData` (as a total function, standing for the
`defaultdict`), the currently selected namespace, the identity of the
request being served, and the static `os.getpid()` / `server_meta` data. -/
structure ServerState where
  data : Bytes → Entry
  /-- `ServerData.namespace`: the currently selected namespace
  (`namespace` is a Lean keyword, hence the field name). -/
  curNs : Bytes
  identity : Bytes
  pid : Nat
  serverMeta : Int

/-- Update one namespace's entry in the store. -/
def ServerState.updateEntry (s : ServerState) (ns : Bytes) (f : Entry → Entry) :
    ServerState :=
  { s with data := fun n => if n = ns then f (s.data n) else s.data n }

/-- `ServerData.set_state`: `self.data[self.namespace][0] = state`. -/
def ServerState.setState (s : ServerState) (d : Doc) : ServerState :=
  s.updateEntry s.curNs (fun en => { en with state := d })

/-- `np.searchsorted(timeline, v, side='right')`: right-biased binary
search, the standard bisect loop `while lo < hi: mid = (lo+hi)//2; if
v < a[mid]: hi = mid else: lo = mid + 1`.  The loop is written with a fuel
argument (the interval shrinks by at least one per iteration, so any fuel
exceeding the initial width is enough) to keep the recursion structural and
kernel-computable. -/
def bisectLoop (l : List Int) (v : Int) : Nat → Nat → Nat → Nat
  | 0, lo, _ => lo
  | fuel + 1, lo, hi =>
      if lo < hi then
        if v < l.getD ((lo + hi) / 2) 0 then bisectLoop l v fuel lo ((lo + hi) / 2)
        else bisectLoop l v fuel ((lo + hi) / 2 + 1) hi
      else lo

def bisectRight (l : List Int) (v : Int) : Nat :=
  bisectLoop l v (l.length + 1) 0 l.length

/-- `StateServer.solve_watcher` (lines 140-168).  Returns the list of
deliveries it sends on the watch router together with its Python return
value: `none` for the bare `return` on an empty timeline, `some true` after
a delivery, `some false` when the scan exhausts the history.

Note that the source reads `self.data.timeline` / `self.data.history` of the
*currently selected* namespace and never uses its `namespace` argument. -/
def solveWatcher (s : ServerState) (watcherId stateId wns : Bytes)
    (onlyAfter : Int) : List Event × Option Bool :=
  let _ := wns  -- the `namespace` argument is ignored by the source
  let en := s.data s.curNs
  let timeline := en.timeline.get
  if timeline.length ≤ 0 then
    ([], none)
  else
    let index := bisectRight timeline onlyAfter
    -- `while True:` scan from `index`, skipping records whose owner equals
    -- `state_id`, breaking on IndexError:
    match (en.history.drop index).find? (fun r => r.owner ≠ stateId) with
    | some r => ([.deliver watcherId r.payload], some true)
    | none => ([], some false)

/-- One iteration of the `for watcher_id in list(pending)` loop of
`solve_pending_watchers`: call `solve_watcher` (its sends happen either
way), and `del pending[watcher_id]` when it returns truthy.  The
accumulator carries the live pending dict and the events so far. -/
def watcherStep (s : ServerState) (acc : List (Bytes × WatchInfo) × List Event)
    (kv : Bytes × WatchInfo) : List (Bytes × WatchInfo) × List Event :=
  ((if (solveWatcher s kv.1 kv.2.stateId kv.2.wns kv.2.onlyAfter).2 = some true
    then acc.1.filter (fun kv2 => kv2.1 ≠ kv.1)
    else acc.1),
   acc.2 ++ (solveWatcher s kv.1 kv.2.stateId kv.2.wns kv.2.onlyAfter).1)

/-- `StateServer.solve_pending_watchers` (lines 170-181): iterate over a
snapshot `list(pending)` of the current namespace's pending dict, call
`solve_watcher` for each, and `del` the entries that resolve.  (The
`if not pending: return` fast path coincides with folding over `[]`.) -/
def solvePendingWatchers (s : ServerState) : ServerState × List Event :=
  let pending := (s.data s.curNs).pending
  let acc := pending.foldl (watcherStep s) (pending, [])
  (s.updateEntry s.curNs (fun en => { en with pending := acc.1 }), acc.2)

/-- Python-dict insertion on an association list: overwrite in place when the
key exists, else append at the end (dicts preserve insertion order). -/
def dictInsert (l : List (Bytes × WatchInfo)) (k : Bytes) (v : WatchInfo) :
    List (Bytes × WatchInfo) :=
  if l.any (fun kv => kv.1 = k) then
    l.map (fun kv => if kv.1 = k then (k, v) else kv)
  else
    l ++ [(k, v)]

/-- A watch-registration message: the fixed 4-part multipart
`(watcher_id, state_id, namespace, only_after)`. -/
structure WatchMsg where
  watcherId : Bytes
  stateId : Bytes
  wns : Bytes
  onlyAfter : Int
deriving DecidableEq, Repr

/-- `StateServer.recv_watcher` (lines 130-138): store the registration into
`self.data.pending`.  The source does not call `set_namespace` here, so the
entry lands in the pending dict of the currently selected namespace, not the
one named in the message; it sends nothing (the returned event list is the
trace of sends, which is empty). -/
def recvWatcher (s : ServerState) (msg : WatchMsg) : ServerState × List Event :=
  (s.updateEntry s.curNs
      (fun en =>
        { en with
          pending :=
            dictInsert en.pending msg.watcherId
              ⟨msg.stateId, msg.wns, msg.onlyAfter⟩ }),
    [])

/-- The commit path of `mutate_safely.__exit__` when the document changed:
`self.data.timeline.append(stamp)`, then `self.data.history.append((self.identity,
serializer.dumps([old, new, stamp])))`, then `self.solve_pending_watchers()`.
`tl'` is the timeline returned by the (fallible) `DoubleList.append`. -/
def commitMutation (s : ServerState) (old new : Doc) (stamp : Int)
    (tl' : DoubleList) : ServerState × List Event :=
  let s1 := s.updateEntry s.curNs (fun en => { en with timeline := tl' })
  let s2 := s1.updateEntry s.curNs
    (fun en => { en with history := en.history ++ [⟨s.identity, (old, new, stamp)⟩] })
  ((solvePendingWatchers s2).1,
   [.appendTimeline stamp, .appendHistory s.identity (old, new, stamp),
    .solveWatchers] ++ (solvePendingWatchers s2).2)

/-- `StateServer.mutate_safely` (lines 90-112).  `body` is the `with`-block:
it receives the current document and returns the document after its in-place
mutations (partial if it raised), the events it emitted (the block's
`self.reply`), and its outcome.  `stamp` is the `time.time()` reading taken
before the block runs. -/
def mutateSafely (s : ServerState) (stamp : Int)
    (body : Doc → Doc × List Event × Except Err Ret) :
    ServerState × List Event × Except Err Ret :=
  let old := (s.data s.curNs).state
  let (doc2, evs, res) := body old
  match res with
  | .error e =>
      -- `except Exception: self.data.set_state(old); raise` — the in-place
      -- mutations are discarded and the error propagates; nothing appended,
      -- no watcher re-evaluated.
      (s, evs, .error e)
  | .ok r =>
      -- the block's in-place mutations are the current document now
      let s1 := s.setState doc2
      if old = doc2 then
        (s1, evs, .ok r)
      else
        match (s1.data s1.curNs).timeline.append stamp with
        | none =>
            -- `DoubleList.append` raised (broadcast ValueError); the commit
            -- aborts mid-way with the document already mutated.
            (s1, evs, .error "ValueError: could not broadcast input array")
        | some tl' =>
            let (s2, evs2) := commitMutation s1 old doc2 stamp tl'
            (s2, evs ++ evs2, .ok r)

/-- `StateServer.run_fn_atomically` (lines 114-128).  The deserialized user
function (with `glom` path selection composed in) is `fn`; the `with`-block
runs it on the current document and replies with its result — note the reply
happens inside the block, i.e. before `mutate_safely` commits. -/
def runFnAtomically (s : ServerState) (fn : Doc → Doc × Except Err Ret)
    (stamp : Int) : ServerState × List Event × Except Err Ret :=
  mutateSafely s stamp (fun doc =>
    match fn doc with
    | (doc2, .ok r) => (doc2, [.reply (.ret r)], .ok r)
    | (doc2, .error e) => (doc2, [], .error e))

/-- Operation codes (`Cmds` enum).  The enum's numeric values live outside
`src/`; they are represented by distinct naturals, which is all the
dispatcher compares. -/
def Cmds.run_fn_atomically : Nat := 0
def Cmds.ping : Nat := 1
def Cmds.get_server_meta : Nat := 2
def Cmds.time : Nat := 3

/-- One request envelope on the state router.  `fn` is the deserialized
atomic function (`Msgs.info` for `run_fn_atomically`), `info` the ping token
(`Msgs.info` for `ping`); only the field matching `cmd` is ever read. -/
structure Request where
  identity : Bytes
  reqNs : Bytes
  cmd : Nat
  fn : Doc → Doc × Except Err Ret
  info : Int

/-- `StateServer.recv_request` (lines 68-88): set `self.identity`, select the
request's namespace, then dispatch on the operation code; unknown codes raise
`ValueError`.  `stamp` is the wall-clock reading used by `time.time()` calls
during this request. -/
def recvRequest (s : ServerState) (req : Request) (stamp : Int) :
    ServerState × List Event × Except Err Unit :=
  let s := { s with identity := req.identity, curNs := req.reqNs }
  if req.cmd = Cmds.run_fn_atomically then
    let (s1, evs, res) := runFnAtomically s req.fn stamp
    (s1, evs, res.map fun _ => ())
  else if req.cmd = Cmds.ping then
    (s, [.reply (.pingR req.info s.pid)], .ok ())
  else if req.cmd = Cmds.get_server_meta then
    (s, [.reply (.meta s.serverMeta)], .ok ())
  else if req.cmd = Cmds.time then
    (s, [.reply (.timeR stamp)], .ok ())
  else
    (s, [], .error "Invalid command")

/-- One item made ready by `zmq.select`: either a watch registration or a
state-router request (paired with the wall-clock reading for its handling). -/
inductive ReadyMsg where
  | watch (msg : WatchMsg)
  | request (req : Request) (stamp : Int)

/-- `StateServer.tick` (lines 183-190): first `solve_pending_watchers()`,
then handle every ready channel item; an exception aborts the remainder of
the iteration and propagates. -/
def tickStep (acc : ServerState × List Event × Except Err Unit)
    (m : ReadyMsg) : ServerState × List Event × Except Err Unit :=
  match acc.2.2 with
  | .error e => (acc.1, acc.2.1, .error e)
  | .ok _ =>
    match m with
    | .watch msg =>
        ((recvWatcher acc.1 msg).1,
         acc.2.1 ++ (recvWatcher acc.1 msg).2, .ok ())
    | .request req stamp =>
        ((recvRequest acc.1 req stamp).1,
         acc.2.1 ++ (recvRequest acc.1 req stamp).2.1,
         (recvRequest acc.1 req stamp).2.2)

def tick (s : ServerState) (ready : List ReadyMsg) :
    ServerState × List Event × Except Err Unit :=
  ready.foldl tickStep
    ((solvePendingWatchers s).1, (solvePendingWatchers s).2, .ok ())

/-- Modelled from the spec: the server main loop that drives the event loop
and handles per-request errors is not under `src/` (only `tick` is).  Per
spec §7, a `ProtocolError` (unknown operation code) is "rejected (reply with
an error indicator or drop)" and "the server continues serving other
requests — this must never be allowed to crash the event loop"; all
per-request errors are local to that request/reply cycle.  The driver below
serves a queue of state-channel requests, converting each propagated
per-request error into an error reply and continuing. -/
def loopStep (acc : ServerState × List Event) (rq : Request × Int) :
    ServerState × List Event :=
  ((recvRequest acc.1 rq.1 rq.2).1,
   acc.2 ++ (recvRequest acc.1 rq.1 rq.2).2.1 ++
     (match (recvRequest acc.1 rq.1 rq.2).2.2 with
      | .ok _ => []
      | .error e => [Event.reply (Resp.err e)]))

def serverLoop (s : ServerState) (reqs : List (Request × Int)) :
    ServerState × List Event :=
  reqs.foldl loopStep (s, [])

/-! ## Binary-search characterisation (for C1) -/

theorem getD_of_lt (l : List Int) (i : Nat) (h : i < l.length) :
    l.getD i 0 = l[i] := by
  simp [List.getD_eq_getElem?_getD, List.getElem?_eq_getElem h]

theorem sorted_getD_le (l : List Int) (hs : l.Sorted (· ≤ ·)) {i j : Nat}
    (hij : i ≤ j) (hj : j < l.length) : l.getD i 0 ≤ l.getD j 0 := by
  have hi : i < l.length := lt_of_le_of_lt hij hj
  rw [getD_of_lt l i hi, getD_of_lt l j hj]
  have := hs.rel_get_of_le (a := ⟨i, hi⟩) (b := ⟨j, hj⟩) (by simpa using hij)
  simpa using this

/-- Invariant-preservation for the bisect loop: if everything strictly below
`lo` is `≤ v` and everything in `[hi, length)` is `> v`, the same holds with
the returned index as the split point, and the index lies in `[lo, hi]`. -/
theorem bisectLoop_spec (l : List Int) (v : Int)
    (hs : l.Sorted (· ≤ ·)) :
    ∀ n lo hi, hi - lo ≤ n → lo ≤ hi → hi ≤ l.length →
    (∀ j, j < lo → l.getD j 0 ≤ v) →
    (∀ j, hi ≤ j → j < l.length → v < l.getD j 0) →
    lo ≤ bisectLoop l v n lo hi ∧ bisectLoop l v n lo hi ≤ hi ∧
      (∀ j, j < bisectLoop l v n lo hi → l.getD j 0 ≤ v) ∧
      (∀ j, bisectLoop l v n lo hi ≤ j → j < l.length → v < l.getD j 0) := by
  intro n
  induction n with
  | zero =>
      intro lo hi hfuel hlohi hhi hbelow habove
      have : lo = hi := by omega
      subst this
      simp only [bisectLoop]
      exact ⟨le_refl _, le_refl _, hbelow, habove⟩
  | succ n ih =>
      intro lo hi hfuel hlohi hhi hbelow habove
      simp only [bisectLoop]
      by_cases h : lo < hi
      · rw [if_pos h]
        have hmidlt : (lo + hi) / 2 < hi := by omega
        have hmidge : lo ≤ (lo + hi) / 2 := by omega
        by_cases hv : v < l.getD ((lo + hi) / 2) 0
        · rw [if_pos hv]
          have habove2 : ∀ j, (lo + hi) / 2 ≤ j → j < l.length → v < l.getD j 0 := by
            intro j hj hjl
            calc v < l.getD ((lo + hi) / 2) 0 := hv
              _ ≤ l.getD j 0 := sorted_getD_le l hs hj hjl
          obtain ⟨h1, h2, h3, h4⟩ :=
            ih lo ((lo + hi) / 2) (by omega) hmidge (by omega) hbelow habove2
          exact ⟨h1, le_trans h2 (le_of_lt hmidlt), h3, h4⟩
        · rw [if_neg hv]
          have hvge : l.getD ((lo + hi) / 2) 0 ≤ v := le_of_not_lt hv
          have hbelow2 : ∀ j, j < (lo + hi) / 2 + 1 → l.getD j 0 ≤ v := by
            intro j hj
            calc l.getD j 0 ≤ l.getD ((lo + hi) / 2) 0 :=
                  sorted_getD_le l hs (by omega) (by omega)
              _ ≤ v := hvge
          obtain ⟨h1, h2, h3, h4⟩ :=
            ih ((lo + hi) / 2 + 1) hi (by omega) (by omega) hhi hbelow2 habove
          exact ⟨le_trans (by omega) h1, h2, h3, h4⟩
      · rw [if_neg h]
        have : lo = hi := by omega
        subst this
        exact ⟨le_refl _, le_refl _, hbelow, habove⟩

theorem bisectRight_spec (l : List Int) (v : Int) (hs : l.Sorted (· ≤ ·)) :
    bisectRight l v ≤ l.length ∧
      (∀ j, j < bisectRight l v → l.getD j 0 ≤ v) ∧
      (∀ j, bisectRight l v ≤ j → j < l.length → v < l.getD j 0) := by
  have h := bisectLoop_spec l v hs (l.length + 1) 0 l.length (by omega) (by omega)
    (le_refl _) (by omega) (by omega)
  exact ⟨h.2.1, h.2.2.1, h.2.2.2⟩

/-! ## C1: `solve_watcher` delivers the first qualifying record -/

theorem find?_congr {α : Type} (p q : α → Bool) :
    ∀ l : List α, (∀ x ∈ l, p x = q x) → l.find? p = l.find? q := by
  intro l
  induction l with
  | nil => intro _; rfl
  | cons a l ih =>
      intro h
      rw [List.find?_cons, List.find?_cons, h a (List.mem_cons_self a l)]
      cases hq : q a
      · exact ih (fun x hx => h x (List.mem_cons_of_mem a hx))
      · rfl

/-- The claim's "first history record with timestamp strictly after
`not_before` and origin different from the excluded one" equals what the
code computes: a right-biased bisect on the timeline followed by a scan of
the history that only filters on the origin. -/
theorem find?_qual_eq_scan (tl : List Int) (hist : List HRec) (sid : Bytes)
    (t : Int) (hsorted : tl.Sorted (· ≤ ·))
    (hcorr : tl = hist.map HRec.stamp) :
    hist.find? (fun r => decide (t < r.stamp) && decide (r.owner ≠ sid)) =
      (hist.drop (bisectRight tl t)).find? (fun r => decide (r.owner ≠ sid)) := by
  obtain ⟨hle, hbelow, habove⟩ := bisectRight_spec tl t hsorted
  have hlen : tl.length = hist.length := by rw [hcorr]; simp
  set idx := bisectRight tl t with hidx
  conv_lhs => rw [(List.take_append_drop idx hist).symm]
  rw [List.find?_append]
  have htake : (hist.take idx).find?
      (fun r => decide (t < r.stamp) && decide (r.owner ≠ sid)) = none := by
    rw [List.find?_eq_none]
    intro r hr
    obtain ⟨j, hj, hje⟩ := List.mem_take_iff_getElem.mp hr
    have hjhist : j < hist.length := by omega
    have hjtl : j < tl.length := by omega
    have hstamp : r.stamp ≤ t := by
      have hb := hbelow j (by omega)
      rw [hcorr, getD_of_lt _ j (by simpa using hjhist)] at hb
      simpa [hje] using hb
    simp only [Bool.and_eq_true, decide_eq_true_eq]
    rintro ⟨h1, _⟩
    exact absurd h1 (not_lt.mpr hstamp)
  rw [htake, Option.none_or]
  apply find?_congr
  intro r hr
  obtain ⟨i, hm, hie⟩ := List.mem_drop_iff_getElem.mp hr
  have hjt : t < r.stamp := by
    have ha := habove (idx + i) (by omega) (by omega)
    rw [hcorr, getD_of_lt _ _ (by simp; omega)] at ha
    simpa [hie] using ha
  simp [hjt]

/-- C1.  For a namespace whose timeline is sorted non-decreasing and in
correspondence with its history (`timeline[i]` is the stamp of
`history[i]`), `solve_watcher` called with that namespace selected delivers
exactly the payload of the lowest-index history record whose timestamp is
strictly greater than `not_before` and whose origin differs from
`excluded_origin`, returning true, when such a record exists; that record's
stamp is strictly after `not_before` and its origin differs from the
excluded one.  When no qualifying record exists it delivers nothing and does
not report a delivery (the source returns `False` after an exhausted scan
and bare `None` on an empty timeline — both falsy, and every call site only
truth-tests the result). -/
theorem solveWatcher_first_qualifying
    (s : ServerState) (wid sid : Bytes) (t : Int)
    (hsorted : ((s.data s.curNs).timeline.get).Sorted (· ≤ ·))
    (hcorr : (s.data s.curNs).timeline.get =
      (s.data s.curNs).history.map HRec.stamp) :
    match (s.data s.curNs).history.find?
        (fun r => decide (t < r.stamp) && decide (r.owner ≠ sid)) with
    | some r =>
        solveWatcher s wid sid s.curNs t = ([.deliver wid r.payload], some true) ∧
          t < r.stamp ∧ r.owner ≠ sid
    | none =>
        solveWatcher s wid sid s.curNs t =
          ([], if (s.data s.curNs).history = [] then none else some false) := by
  have hlen : ((s.data s.curNs).timeline.get).length =
      ((s.data s.curNs).history).length := by rw [hcorr]; simp
  have hkey := find?_qual_eq_scan _ _ sid t hsorted hcorr
  by_cases hemp : ((s.data s.curNs).timeline.get).length ≤ 0
  · have hh0 : (s.data s.curNs).history = [] := by
      have : ((s.data s.curNs).history).length = 0 := by omega
      exact List.eq_nil_of_length_eq_zero this
    rw [hh0]
    simp only [List.find?_nil]
    dsimp only [solveWatcher]
    rw [if_pos hemp]
    simp
  · split
    · next r heq =>
        have hfound := List.find?_some heq
        simp only [Bool.and_eq_true, decide_eq_true_eq] at hfound
        rw [hkey] at heq
        refine ⟨?_, hfound⟩
        dsimp only [solveWatcher]
        rw [if_neg hemp, heq]
    · next heq =>
        rw [hkey] at heq
        have hne : (s.data s.curNs).history ≠ [] := by
          intro h0
          rw [h0] at hlen
          simp only [List.length_nil] at hlen
          omega
        rw [if_neg hne]
        dsimp only [solveWatcher]
        rw [if_neg hemp, heq]

/-! ## Shared helper lemmas and a concrete base state -/

/-- A fresh server: every namespace at the `defaultdict` default, namespace
`"a"` selected, identity `"c"`. -/
def initState : ServerState :=
  { data := fun _ => Entry.default, curNs := "a", identity := "c",
    pid := 1, serverMeta := 0 }

theorem setState_curNs (s : ServerState) (d : Doc) :
    (s.setState d).curNs = s.curNs := rfl

theorem setState_timeline (s : ServerState) (d : Doc) :
    ((s.setState d).data s.curNs).timeline = (s.data s.curNs).timeline := by
  simp [ServerState.setState, ServerState.updateEntry]

theorem setState_self (s : ServerState) :
    s.setState ((s.data s.curNs).state) = s := by
  cases s with
  | mk data ns id pid meta =>
      simp only [ServerState.setState, ServerState.updateEntry]
      congr 1
      funext n
      by_cases h : n = ns
      · subst h; rw [if_pos rfl]
      · rw [if_neg h]

/-! ## C2: a raising transform rolls back completely -/

/-- C2.  If the transform raises at any point of an atomic run (leaving
behind the partially mutated document `d` and error `e`), the server state
after `run_fn_atomically` is exactly the state before it — the document is
rolled back and no namespace's history, timeline or pending set changes —
no reply or delivery is sent, nothing is appended, no pending watcher is
re-evaluated (no `solve_pending_watchers` invocation appears in the trace),
and the error is propagated to the caller. -/
theorem runFnAtomically_error_rollback (s : ServerState)
    (fn : Doc → Doc × Except Err Ret) (stamp : Int) (d : Doc) (e : Err)
    (hraise : fn ((s.data s.curNs).state) = (d, Except.error e)) :
    runFnAtomically s fn stamp = (s, [], Except.error e) := by
  simp only [runFnAtomically, mutateSafely, hraise]

/-- Witness for C2 at a concrete input: a transform that mutates the
document and then raises `"boom"`. -/
theorem runFnAtomically_error_rollback_witness :
    ((fun _ : Doc => (([("x", 1)] : Doc), (Except.error "boom" : Except Err Ret)))
        ((initState.data initState.curNs).state) =
      ([("x", 1)], Except.error "boom")) ∧
    runFnAtomically initState (fun _ => ([("x", 1)], Except.error "boom")) 3 =
      (initState, [], Except.error "boom") :=
  ⟨rfl, runFnAtomically_error_rollback initState _ 3 _ _ rfl⟩

/-! ## C6: no-op mutations are suppressed -/

/-- C6.  If the transform succeeds and leaves the document equal to the
pre-call snapshot, the server replies with the transform's return value and
does nothing else: the state is unchanged, nothing is appended to history
or timeline, and the watch resolver is not invoked (the trace holds exactly
the reply). -/
theorem runFnAtomically_noop_suppression (s : ServerState)
    (fn : Doc → Doc × Except Err Ret) (stamp : Int) (r : Ret)
    (hok : fn ((s.data s.curNs).state) = ((s.data s.curNs).state, Except.ok r)) :
    runFnAtomically s fn stamp = (s, [Event.reply (Resp.ret r)], Except.ok r) := by
  simp only [runFnAtomically, mutateSafely, hok]
  simp [setState_self]

/-- Witness for C6 at a concrete input: the identity transform returning 9
on a fresh namespace. -/
theorem runFnAtomically_noop_suppression_witness :
    ((fun doc : Doc => (doc, (Except.ok 9 : Except Err Ret)))
        ((initState.data initState.curNs).state) =
      ((initState.data initState.curNs).state, Except.ok 9)) ∧
    runFnAtomically initState (fun doc => (doc, Except.ok 9)) 3 =
      (initState, [Event.reply (Resp.ret 9)], Except.ok 9) :=
  ⟨rfl, runFnAtomically_noop_suppression initState _ 3 9 rfl⟩

/-- Concrete state for the C1 witness: namespace `"a"` holds two history
records, the first owned by the excluded origin `"x"`. -/
def c1State : ServerState :=
  { data := fun _ =>
      { state := [], timeline := ⟨[5, 7], 2⟩,
        history := [⟨"x", ([], [], 5)⟩, ⟨"o", ([], [("k", 1)], 7)⟩],
        pending := [] },
    curNs := "a", identity := "i", pid := 1, serverMeta := 0 }

/-- Witness for C1 at a concrete input: with `not_before = 4` and excluded
origin `"x"`, the stamp-5 record is skipped (self-exclusion) and the
stamp-7 record is delivered. -/
theorem solveWatcher_first_qualifying_witness :
    ((c1State.data c1State.curNs).timeline.get).Sorted (· ≤ ·) ∧
    ((c1State.data c1State.curNs).timeline.get =
      (c1State.data c1State.curNs).history.map HRec.stamp) ∧
    solveWatcher c1State "w" "x" c1State.curNs 4 =
      ([Event.deliver "w" ([], [("k", 1)], 7)], some true) :=
  ⟨by decide, by decide,
    (solveWatcher_first_qualifying c1State "w" "x" 4 (by decide) (by decide)).1⟩

/-! ## C3: order of commit steps around the reply -/

theorem solveWatcher_events (s : ServerState) (wid sid wns : Bytes) (t : Int) :
    (solveWatcher s wid sid wns t).1 = [] ∨
      ∃ p, (solveWatcher s wid sid wns t).1 = [Event.deliver wid p] := by
  dsimp only [solveWatcher]
  split
  · left; rfl
  · split
    · right; exact ⟨_, rfl⟩
    · left; rfl

theorem foldl_watcherStep_events (s : ServerState) :
    ∀ (l : List (Bytes × WatchInfo)) (rem : List (Bytes × WatchInfo))
      (evs0 : List Event),
      (∀ ev ∈ evs0, ∃ w p, ev = Event.deliver w p) →
      ∀ ev ∈ (l.foldl (watcherStep s) (rem, evs0)).2, ∃ w p, ev = Event.deliver w p := by
  intro l
  induction l with
  | nil => intro rem evs0 h0; simpa using h0
  | cons kv l ih =>
      intro rem evs0 h0
      rw [List.foldl_cons]
      have hstep : watcherStep s (rem, evs0) kv =
          ((watcherStep s (rem, evs0) kv).1,
           evs0 ++ (solveWatcher s kv.1 kv.2.stateId kv.2.wns kv.2.onlyAfter).1) := rfl
      rw [hstep]
      apply ih
      intro ev hev
      rcases List.mem_append.mp hev with h | h
      · exact h0 ev h
      · rcases solveWatcher_events s kv.1 kv.2.stateId kv.2.wns kv.2.onlyAfter with
          he | ⟨p, he⟩
        · rw [he] at h; cases h
        · rw [he] at h
          simp only [List.mem_singleton] at h
          exact ⟨kv.1, p, h⟩

/-- Everything `solve_pending_watchers` sends is a watch delivery. -/
theorem solvePendingWatchers_events (s : ServerState) :
    ∀ ev ∈ (solvePendingWatchers s).2, ∃ w p, ev = Event.deliver w p := by
  dsimp only [solvePendingWatchers]
  exact foldl_watcherStep_events s _ _ [] (by intro ev h; cases h)


/-- C3 (amended).  On a successful, document-changing atomic run (with the
timeline append succeeding), the server's step order is: reply with the
transform's return value first (the reply is issued inside the atomic
block, before the commit), then append `stamp` to the timeline, then append
`(origin, encode([before, after, stamp]))` to the history, then invoke the
watch resolver, whose deliveries close the trace; the transform's result is
propagated as the outcome. -/
theorem runFnAtomically_commit_order (s : ServerState)
    (fn : Doc → Doc × Except Err Ret) (stamp : Int) (nw : Doc) (r : Ret)
    (hok : fn ((s.data s.curNs).state) = (nw, Except.ok r))
    (hchanged : ¬ (s.data s.curNs).state = nw)
    (tl' : DoubleList)
    (happ : (s.data s.curNs).timeline.append stamp = some tl') :
    (runFnAtomically s fn stamp).2.1.take 4 =
      [Event.reply (Resp.ret r), Event.appendTimeline stamp,
       Event.appendHistory s.identity ((s.data s.curNs).state, nw, stamp),
       Event.solveWatchers] ∧
    (∀ ev ∈ (runFnAtomically s fn stamp).2.1.drop 4,
      ∃ w p, ev = Event.deliver w p) ∧
    (runFnAtomically s fn stamp).2.2 = Except.ok r := by
  have hid : (s.setState nw).identity = s.identity := rfl
  have happ2 : ((s.setState nw).data (s.setState nw).curNs).timeline.append stamp =
      some tl' := by
    rw [setState_curNs, setState_timeline]; exact happ
  simp only [runFnAtomically, mutateSafely, hok, if_neg hchanged, happ2,
    commitMutation, hid]
  refine ⟨by simp, ?_, trivial⟩
  intro ev hev
  simp only [List.cons_append, List.nil_append, List.drop_succ_cons,
    List.drop_zero] at hev
  exact solvePendingWatchers_events _ ev hev

set_option maxRecDepth 8192 in
/-- Witness for the amended C3 at a concrete input: a transform writing
`k := 1` into an empty namespace. -/
theorem runFnAtomically_commit_order_witness :
    ((fun _ : Doc => (([("k", 1)] : Doc), (Except.ok 42 : Except Err Ret)))
        ((initState.data initState.curNs).state) = ([("k", 1)], Except.ok 42)) ∧
    (¬ ((initState.data initState.curNs).state = [("k", 1)])) ∧
    ((initState.data initState.curNs).timeline.append 7 =
      some ⟨(List.replicate 1024 0).set 0 7, 1⟩) ∧
    ((runFnAtomically initState (fun _ => ([("k", 1)], Except.ok 42)) 7).2.1.take 4 =
      [Event.reply (Resp.ret 42), Event.appendTimeline 7,
       Event.appendHistory "c" ([], [("k", 1)], 7), Event.solveWatchers]) :=
  ⟨rfl, by decide, by decide,
    (runFnAtomically_commit_order initState _ 7 [("k", 1)] 42 rfl (by decide)
      ⟨(List.replicate 1024 0).set 0 7, 1⟩ (by decide)).1⟩

set_option maxRecDepth 8192 in
/-- Counterexample to C3 as stated: the claim requires the order
append-history, append-timeline, resolve-watchers, and only then the
reply; at this concrete input (a transform writing `k := 1` into an empty
namespace) the code's trace is reply first, then append-timeline, then
append-history, then resolve, so the claimed trace does not occur. -/
theorem runFnAtomically_order_counterexample :
    ¬ ((runFnAtomically initState (fun _ => ([("k", 1)], Except.ok 42)) 7).2.1 =
        [Event.appendHistory "c" ([], [("k", 1)], 7), Event.appendTimeline 7,
         Event.solveWatchers, Event.reply (Resp.ret 42)]) := by
  decide

/-! ## C4: watches are not scoped to the namespace named in the message -/

set_option maxRecDepth 8192 in
/-- C4 (code bug, evaluated at the failing input).  `recv_watcher` never
calls `set_namespace` and `solve_watcher` ignores its `namespace` argument,
so a watch registered for namespace `"b"` while namespace `"a"` is the
currently selected one is stored in `"a"`'s pending set (and `"b"`'s stays
empty), and a subsequent mutation in namespace `"a"` delivers `"a"`'s
mutation record to that watcher — the delivery closes the trace below —
although the watch named namespace `"b"`. -/
theorem recvWatcher_wrong_namespace_bug :
    ((recvWatcher initState ⟨"w", "x", "b", 0⟩).1.data "a").pending =
      [("w", ⟨"x", "b", 0⟩)] ∧
    ((recvWatcher initState ⟨"w", "x", "b", 0⟩).1.data "b").pending = [] ∧
    (recvRequest (recvWatcher initState ⟨"w", "x", "b", 0⟩).1
        { identity := "c2", reqNs := "a", cmd := Cmds.run_fn_atomically,
          fn := fun _ => ([("k", 1)], Except.ok 0), info := 0 } 7).2.1 =
      [Event.reply (Resp.ret 0), Event.appendTimeline 7,
       Event.appendHistory "c2" ([], [("k", 1)], 7), Event.solveWatchers,
       Event.deliver "w" ([], [("k", 1)], 7)] := by
  refine ⟨by decide, by decide, by decide⟩

/-! ## C5: the timeline/history correspondence and the `DoubleList` growth bug -/

theorem take_succ_set (arr : List Int) (n : Nat) (x : Int) (h : n < arr.length) :
    (arr.set n x).take (n + 1) = arr.take n ++ [x] := by
  rw [List.take_succ, List.set_take]
  congr 1
  · apply List.set_eq_of_length_le
    simp
  · rw [List.getElem?_set_self h]
    rfl

/-- While the fill pointer stays within the backing array, `DoubleList`
behaves as intended: each append lands in the array and `get` returns
exactly the appended items after the existing ones. -/
theorem appendAll_within (l : List Int) : ∀ dl : DoubleList,
    dl.nexti + l.length ≤ dl.arr.length →
    ∃ dl', dl.appendAll l = some dl' ∧ dl'.arr.length = dl.arr.length ∧
      dl'.nexti = dl.nexti + l.length ∧ dl'.get = dl.get ++ l := by
  induction l with
  | nil =>
      intro dl _
      exact ⟨dl, rfl, rfl, by simp, by simp [DoubleList.get]⟩
  | cons x l ih =>
      intro dl hcap
      have hlt : dl.nexti < dl.arr.length := by
        simp only [List.length_cons] at hcap; omega
      have hstep : dl.append x = some ⟨dl.arr.set dl.nexti x, dl.nexti + 1⟩ := by
        simp only [DoubleList.append]
        rw [if_neg (by omega)]
      have hcap1 : (dl.nexti + 1) + l.length ≤ (dl.arr.set dl.nexti x).length := by
        simp only [List.length_set]
        simp only [List.length_cons] at hcap
        omega
      obtain ⟨dl', h1, h2, h3, h4⟩ := ih ⟨dl.arr.set dl.nexti x, dl.nexti + 1⟩ hcap1
      refine ⟨dl', ?_, by simpa using h2,
        by simp only [h3, List.length_cons]; omega, ?_⟩
      · simp only [DoubleList.appendAll, List.foldlM_cons, hstep]
        exact h1
      · rw [h4]
        simp only [DoubleList.get]
        rw [take_succ_set dl.arr dl.nexti x hlt]
        simp

/-- Splitting a sequence of appends. -/
theorem appendAll_append (dl : DoubleList) (l1 l2 : List Int) :
    dl.appendAll (l1 ++ l2) =
      (dl.appendAll l1).bind (fun d => d.appendAll l2) := by
  simp only [DoubleList.appendAll, List.foldlM_append]
  rfl

/-- 1025 distinct mutation timestamps: one more than the initial capacity. -/
def stamps1025 : List Int := (List.range 1025).map Int.ofNat

set_option maxRecDepth 8192 in
/-- C5 (code bug, evaluated at the failing input).  After 1025 appends — one
past the initial 1024 capacity — the timeline read back via `get` holds only
the first 1024 stamps: the overflow branch of `DoubleList.append` builds the
doubled array but never assigns it to `self.arr`, so the 1025th stamp goes
into a discarded local array (while the parallel history list, an ordinary
Python list, receives its 1025th record), and the very next append raises a
broadcast `ValueError`.  The claim's "exactly n entries ... for all valid i"
fails at n = 1025. -/
theorem doubleList_growth_bug :
    stamps1025.length = 1025 ∧
    ∃ dl, DoubleList.init.appendAll stamps1025 = some dl ∧
      dl.get = stamps1025.take 1024 ∧ dl.get.length = 1024 ∧
      dl.append 1025 = none := by
  have hlen : stamps1025.length = 1025 := by
    show ((List.range 1025).map Int.ofNat).length = 1025
    rw [List.length_map, List.length_range]
  have hsplit : stamps1025 = stamps1025.take 1024 ++ stamps1025.drop 1024 :=
    (List.take_append_drop 1024 stamps1025).symm
  have hlen1 : (stamps1025.take 1024).length = 1024 := by
    rw [List.length_take, hlen]
    omega
  obtain ⟨dl1, h1, harr, hnexti, hget⟩ :=
    appendAll_within (stamps1025.take 1024) DoubleList.init
      (by rw [hlen1]
          show 0 + 1024 ≤ (List.replicate 1024 (0 : Int)).length
          rw [List.length_replicate])
  have harr1024 : dl1.arr.length = 1024 := by
    rw [harr]
    show (List.replicate 1024 (0 : Int)).length = 1024
    rw [List.length_replicate]
  have hnexti1024 : dl1.nexti = 1024 := by
    rw [hnexti, hlen1]
    show 0 + 1024 = 1024
    omega
  have hget1 : dl1.get = stamps1025.take 1024 := by
    rw [hget]
    show ([] : List Int) ++ _ = _
    rw [List.nil_append]
  have harr_eq : dl1.arr = stamps1025.take 1024 := by
    have harr2 : dl1.get = dl1.arr := by
      show dl1.arr.take dl1.nexti = dl1.arr
      rw [hnexti1024, ← harr1024, List.take_length]
    rw [← harr2, hget1]
  have hdrop : stamps1025.drop 1024 = [(1024 : Int)] := by
    show ((List.range 1025).map Int.ofNat).drop 1024 = [(1024 : Int)]
    rw [List.range_succ, List.map_append]
    have h1024 : ((List.range 1024).map Int.ofNat).length = 1024 := by
      rw [List.length_map, List.length_range]
    rw [List.drop_left' h1024]
    rfl
  have hover : dl1.append 1024 = some ⟨dl1.arr, 1025⟩ := by
    simp only [DoubleList.append, hnexti1024, harr1024]
    rfl
  refine ⟨hlen, ⟨dl1.arr, 1025⟩, ?_, ?_, ?_, ?_⟩
  · conv_lhs => rw [hsplit]
    rw [appendAll_append, h1]
    show dl1.appendAll (stamps1025.drop 1024) = some ⟨dl1.arr, 1025⟩
    rw [hdrop]
    show dl1.append 1024 >>= (fun b => DoubleList.appendAll b []) =
      some ⟨dl1.arr, 1025⟩
    rw [hover]
    rfl
  · show dl1.arr.take 1025 = stamps1025.take 1024
    rw [List.take_of_length_le (by omega), harr_eq]
  · show (dl1.arr.take 1025).length = 1024
    rw [List.take_of_length_le (by omega), harr1024]
  · simp only [DoubleList.append, harr1024]
    rfl

/-! ## C9: the pending-watch resolution pass is idempotent -/

/-- The condition under which the `for` loop of `solve_pending_watchers`
deletes a pending entry: its `solve_watcher` call reports a delivery. -/
def watchSolved (s : ServerState) (kv : Bytes × WatchInfo) : Prop :=
  (solveWatcher s kv.1 kv.2.stateId kv.2.wns kv.2.onlyAfter).2 = some true

/-- `solve_watcher` never reads the pending dict, so replacing the current
namespace's pending dict does not change its result. -/
theorem solveWatcher_updatePending (s : ServerState)
    (p : List (Bytes × WatchInfo)) (wid sid wns : Bytes) (t : Int) :
    solveWatcher (s.updateEntry s.curNs (fun en => { en with pending := p }))
        wid sid wns t =
      solveWatcher s wid sid wns t := by
  simp [solveWatcher, ServerState.updateEntry]

theorem foldl_watcherStep_subset (s : ServerState) :
    ∀ (l rem : List (Bytes × WatchInfo)) (evs : List Event),
      ∀ x ∈ (l.foldl (watcherStep s) (rem, evs)).1, x ∈ rem := by
  intro l
  induction l with
  | nil => intro rem evs x hx; simpa using hx
  | cons kv l ih =>
      intro rem evs x hx
      rw [List.foldl_cons] at hx
      have hx2 : x ∈ (watcherStep s (rem, evs) kv).1 :=
        ih (watcherStep s (rem, evs) kv).1 (watcherStep s (rem, evs) kv).2 x hx
      simp only [watcherStep] at hx2
      split at hx2
      · exact List.mem_of_mem_filter hx2
      · exact hx2

theorem foldl_watcherStep_removes (s : ServerState) :
    ∀ (l rem : List (Bytes × WatchInfo)) (evs : List Event)
      (x : Bytes × WatchInfo), x ∈ l → watchSolved s x →
      x ∉ (l.foldl (watcherStep s) (rem, evs)).1 := by
  intro l
  induction l with
  | nil => intro rem evs x hx; cases hx
  | cons kv l ih =>
      intro rem evs x hx hsol hmem
      rw [List.foldl_cons] at hmem
      rcases List.mem_cons.mp hx with heq | hx2
      · subst heq
        have hsub := foldl_watcherStep_subset s l
          (watcherStep s (rem, evs) x).1 (watcherStep s (rem, evs) x).2 x hmem
        simp only [watcherStep] at hsub
        rw [if_pos (show (solveWatcher s x.1 x.2.stateId x.2.wns x.2.onlyAfter).2 =
          some true from hsol)] at hsub
        have := List.of_mem_filter hsub
        simp at this
      · exact ih (watcherStep s (rem, evs) kv).1 (watcherStep s (rem, evs) kv).2
          x hx2 hsol hmem

theorem foldl_watcherStep_unsolved (s : ServerState) :
    ∀ (l rem : List (Bytes × WatchInfo)) (evs : List Event),
      (∀ kv ∈ l, ¬ watchSolved s kv) →
      (l.foldl (watcherStep s) (rem, evs)).1 = rem := by
  intro l
  induction l with
  | nil => intro rem evs _; rfl
  | cons kv l ih =>
      intro rem evs hall
      rw [List.foldl_cons]
      have hstep : watcherStep s (rem, evs) kv =
          (rem, evs ++ (solveWatcher s kv.1 kv.2.stateId kv.2.wns kv.2.onlyAfter).1) := by
        simp only [watcherStep]
        rw [if_neg (show ¬ (solveWatcher s kv.1 kv.2.stateId kv.2.wns
          kv.2.onlyAfter).2 = some true from hall kv (List.mem_cons_self kv l))]
      rw [hstep]
      exact ih rem _ (fun kv' h' => hall kv' (List.mem_cons_of_mem kv h'))

/-- Entries that survive the resolution pass are exactly unsolvable ones. -/
theorem foldl_watcherStep_remaining_unsolved (s : ServerState)
    (l : List (Bytes × WatchInfo)) (x : Bytes × WatchInfo)
    (hx : x ∈ (l.foldl (watcherStep s) (l, [])).1) : ¬ watchSolved s x :=
  fun hsol =>
    foldl_watcherStep_removes s l l [] x
      (foldl_watcherStep_subset s l l [] x hx) hsol hx

/-- C9.  Running the pending-watch resolution pass twice in a row with no
intervening mutation leaves the pending set after the second call identical
to the pending set after the first: each pass removes exactly the watches
it delivers, and a second pass over the same log removes nothing more. -/
theorem solvePendingWatchers_idempotent (s : ServerState) :
    (((solvePendingWatchers (solvePendingWatchers s).1).1).data
        ((solvePendingWatchers s).1).curNs).pending =
      (((solvePendingWatchers s).1).data ((solvePendingWatchers s).1).curNs).pending := by
  have hcur : ((solvePendingWatchers s).1).curNs = s.curNs := rfl
  have hsw : ∀ wid sid wns t,
      solveWatcher (solvePendingWatchers s).1 wid sid wns t =
        solveWatcher s wid sid wns t := by
    intro wid sid wns t
    exact solveWatcher_updatePending s _ wid sid wns t
  have hsolved : ∀ kv, watchSolved (solvePendingWatchers s).1 kv ↔ watchSolved s kv := by
    intro kv
    unfold watchSolved
    rw [hsw]
  have hpend : (((solvePendingWatchers s).1).data ((solvePendingWatchers s).1).curNs).pending =
      ((s.data s.curNs).pending.foldl (watcherStep s) ((s.data s.curNs).pending, [])).1 := by
    simp [solvePendingWatchers, ServerState.updateEntry]
  have hall : ∀ kv ∈ (((solvePendingWatchers s).1).data
      ((solvePendingWatchers s).1).curNs).pending,
      ¬ watchSolved (solvePendingWatchers s).1 kv := by
    intro kv hkv
    rw [hpend] at hkv
    rw [hsolved]
    exact foldl_watcherStep_remaining_unsolved s _ kv hkv
  have hsecond : (((solvePendingWatchers (solvePendingWatchers s).1).1).data
      ((solvePendingWatchers s).1).curNs).pending =
      ((((solvePendingWatchers s).1).data ((solvePendingWatchers s).1).curNs).pending.foldl
        (watcherStep (solvePendingWatchers s).1)
        ((((solvePendingWatchers s).1).data ((solvePendingWatchers s).1).curNs).pending, [])).1 := by
    simp [solvePendingWatchers, ServerState.updateEntry]
  rw [hsecond]
  exact foldl_watcherStep_unsolved (solvePendingWatchers s).1 _ _ [] hall

/-! ## C7: watch registrations are stored first, resolved on the next tick -/

theorem mem_dictInsert_self (l : List (Bytes × WatchInfo)) (k : Bytes)
    (v : WatchInfo) : (k, v) ∈ dictInsert l k v := by
  unfold dictInsert
  split
  · next hany =>
      obtain ⟨x, hx, hpx⟩ := List.any_eq_true.mp hany
      refine List.mem_map.mpr ⟨x, hx, ?_⟩
      rw [if_pos (by simpa using hpx)]
  · exact List.mem_append_right _ (List.mem_singleton.mpr rfl)

/-- The resolution pass only appends to the accumulated event list. -/
theorem foldl_watcherStep_events_prefix (s : ServerState) :
    ∀ (l rem : List (Bytes × WatchInfo)) (evs : List Event),
      ∃ rest, (l.foldl (watcherStep s) (rem, evs)).2 = evs ++ rest := by
  intro l
  induction l with
  | nil => intro rem evs; exact ⟨[], by simp⟩
  | cons kv l ih =>
      intro rem evs
      rw [List.foldl_cons]
      obtain ⟨rest, hrest⟩ := ih (watcherStep s (rem, evs) kv).1
        (watcherStep s (rem, evs) kv).2
      refine ⟨(solveWatcher s kv.1 kv.2.stateId kv.2.wns kv.2.onlyAfter).1 ++ rest, ?_⟩
      rw [hrest]
      show (watcherStep s (rem, evs) kv).2 ++ rest = _
      simp only [watcherStep]
      rw [List.append_assoc]

/-- The resolution pass emits the sends of `solve_watcher` for every entry
of the snapshot it iterates over. -/
theorem foldl_watcherStep_delivers (s : ServerState) :
    ∀ (l rem : List (Bytes × WatchInfo)) (evs : List Event)
      (kv : Bytes × WatchInfo), kv ∈ l →
      ∀ ev ∈ (solveWatcher s kv.1 kv.2.stateId kv.2.wns kv.2.onlyAfter).1,
        ev ∈ (l.foldl (watcherStep s) (rem, evs)).2 := by
  intro l
  induction l with
  | nil => intro rem evs kv hkv; cases hkv
  | cons kv0 l ih =>
      intro rem evs kv hkv ev hev
      rw [List.foldl_cons]
      rcases List.mem_cons.mp hkv with heq | hmem
      · subst heq
        obtain ⟨rest, hrest⟩ := foldl_watcherStep_events_prefix s l
          (watcherStep s (rem, evs) kv).1 (watcherStep s (rem, evs) kv).2
        rw [hrest]
        apply List.mem_append_left
        show ev ∈ (watcherStep s (rem, evs) kv).2
        simp only [watcherStep]
        exact List.mem_append_right _ hev
      · exact ih (watcherStep s (rem, evs) kv0).1 (watcherStep s (rem, evs) kv0).2
          kv hmem ev hev

/-- Every tick opens with the events of the resolution pass. -/
theorem tick_events_prefix (s : ServerState) (ready : List ReadyMsg) :
    ∃ rest, (tick s ready).2.1 = (solvePendingWatchers s).2 ++ rest := by
  suffices h : ∀ (l : List ReadyMsg) (acc : ServerState × List Event × Except Err Unit),
      ∃ rest, (l.foldl tickStep acc).2.1 = acc.2.1 ++ rest by
    exact h ready _
  intro l
  induction l with
  | nil => intro acc; exact ⟨[], by simp⟩
  | cons m l ih =>
      intro acc
      rw [List.foldl_cons]
      obtain ⟨rest, hrest⟩ := ih (tickStep acc m)
      rw [hrest]
      match hres : acc.2.2 with
      | .error e =>
          refine ⟨rest, ?_⟩
          simp only [tickStep, hres]
      | .ok _ =>
          match m with
          | .watch msg =>
              refine ⟨(recvWatcher acc.1 msg).2 ++ rest, ?_⟩
              simp only [tickStep, hres, List.append_assoc]
          | .request req stamp =>
              refine ⟨(recvRequest acc.1 req stamp).2.1 ++ rest, ?_⟩
              simp only [tickStep, hres, List.append_assoc]

theorem updateEntry_data_self (s : ServerState) (ns : Bytes) (f : Entry → Entry) :
    (s.updateEntry ns f).data ns = f (s.data ns) := by
  simp [ServerState.updateEntry]

theorem solvePendingWatchers_pending (t : ServerState) :
    (((solvePendingWatchers t).1).data t.curNs).pending =
      ((t.data t.curNs).pending.foldl (watcherStep t)
        ((t.data t.curNs).pending, [])).1 := by
  simp [solvePendingWatchers, ServerState.updateEntry]

/-- C7 (amended).  A watch registration is stored into the (currently
selected) namespace's pending dict unconditionally and nothing is delivered
by the registration path itself; the first resolution attempt happens at
the start of the next event-loop tick, whose resolution-pass events open
the tick's trace, and if the watch is already satisfiable that pass
delivers the qualifying record to it and removes it from the pending set. -/
theorem recvWatcher_stores_then_tick_resolves (s : ServerState) (msg : WatchMsg)
    (ready : List ReadyMsg) :
    (recvWatcher s msg).2 = [] ∧
    (((recvWatcher s msg).1).data s.curNs).pending =
      dictInsert ((s.data s.curNs).pending) msg.watcherId
        ⟨msg.stateId, msg.wns, msg.onlyAfter⟩ ∧
    (∃ rest, (tick (recvWatcher s msg).1 ready).2.1 =
        (solvePendingWatchers (recvWatcher s msg).1).2 ++ rest) ∧
    (∀ p, solveWatcher (recvWatcher s msg).1 msg.watcherId msg.stateId msg.wns
          msg.onlyAfter = ([Event.deliver msg.watcherId p], some true) →
      Event.deliver msg.watcherId p ∈ (solvePendingWatchers (recvWatcher s msg).1).2 ∧
      (msg.watcherId, (⟨msg.stateId, msg.wns, msg.onlyAfter⟩ : WatchInfo)) ∉
        (((solvePendingWatchers (recvWatcher s msg).1).1).data s.curNs).pending) := by
  have hpend : (((recvWatcher s msg).1).data s.curNs).pending =
      dictInsert ((s.data s.curNs).pending) msg.watcherId
        ⟨msg.stateId, msg.wns, msg.onlyAfter⟩ := by
    simp only [recvWatcher, updateEntry_data_self]
  have hkv : (msg.watcherId, (⟨msg.stateId, msg.wns, msg.onlyAfter⟩ : WatchInfo)) ∈
      (((recvWatcher s msg).1).data ((recvWatcher s msg).1).curNs).pending := by
    show (msg.watcherId, (⟨msg.stateId, msg.wns, msg.onlyAfter⟩ : WatchInfo)) ∈
      (((recvWatcher s msg).1).data s.curNs).pending
    rw [hpend]
    exact mem_dictInsert_self _ _ _
  refine ⟨rfl, hpend, tick_events_prefix _ ready, ?_⟩
  intro p hsolve
  constructor
  · show Event.deliver msg.watcherId p ∈
      ((((recvWatcher s msg).1).data ((recvWatcher s msg).1).curNs).pending.foldl
        (watcherStep (recvWatcher s msg).1)
        ((((recvWatcher s msg).1).data ((recvWatcher s msg).1).curNs).pending, [])).2
    apply foldl_watcherStep_delivers (recvWatcher s msg).1 _ _ []
      (msg.watcherId, ⟨msg.stateId, msg.wns, msg.onlyAfter⟩) hkv
    rw [hsolve]
    exact List.mem_singleton.mpr rfl
  · have hsolved : watchSolved (recvWatcher s msg).1
        (msg.watcherId, ⟨msg.stateId, msg.wns, msg.onlyAfter⟩) := by
      unfold watchSolved
      rw [hsolve]
    show (msg.watcherId, (⟨msg.stateId, msg.wns, msg.onlyAfter⟩ : WatchInfo)) ∉
        (((solvePendingWatchers (recvWatcher s msg).1).1).data
          ((recvWatcher s msg).1).curNs).pending
    rw [solvePendingWatchers_pending]
    exact foldl_watcherStep_removes (recvWatcher s msg).1 _ _ [] _ hkv hsolved

/-- Concrete state for C7: namespace `"a"` already holds one mutation
record (origin `"o"`, stamp 5) and no pending watch. -/
def c7State : ServerState :=
  { data := fun _ =>
      { state := [("k", 1)], timeline := ⟨[5], 1⟩,
        history := [⟨"o", ([], [("k", 1)], 5)⟩], pending := [] },
    curNs := "a", identity := "i", pid := 1, serverMeta := 0 }

/-- Counterexample to C7 as stated: at this input the watch (`not_before =
0`, excluded origin `"x"`) is immediately satisfiable — `solve_watcher`
would deliver the stamp-5 record at once — yet `recv_watcher` delivers
nothing and stores the registration in the pending set anyway. -/
theorem recvWatcher_no_immediate_resolution :
    (recvWatcher c7State ⟨"w", "x", "a", 0⟩).2 = [] ∧
    ((recvWatcher c7State ⟨"w", "x", "a", 0⟩).1.data "a").pending =
      [("w", ⟨"x", "a", 0⟩)] ∧
    solveWatcher c7State "w" "x" "a" 0 =
      ([Event.deliver "w" ([], [("k", 1)], 5)], some true) :=
  ⟨rfl, by decide, by decide⟩

/-- Witness for the amended C7 at a concrete input: the stored watch is
satisfiable, and the next resolution pass delivers to it and removes it. -/
theorem recvWatcher_stores_then_tick_resolves_witness :
    (solveWatcher (recvWatcher c7State ⟨"w", "x", "a", 0⟩).1 "w" "x" "a" 0 =
      ([Event.deliver "w" ([], [("k", 1)], 5)], some true)) ∧
    (Event.deliver "w" ([], [("k", 1)], 5) ∈
        (solvePendingWatchers (recvWatcher c7State ⟨"w", "x", "a", 0⟩).1).2 ∧
      ("w", (⟨"x", "a", 0⟩ : WatchInfo)) ∉
        (((solvePendingWatchers (recvWatcher c7State ⟨"w", "x", "a", 0⟩).1).1).data
          "a").pending) :=
  ⟨by decide,
    (recvWatcher_stores_then_tick_resolves c7State ⟨"w", "x", "a", 0⟩ []).2.2.2
      ([], [("k", 1)], 5) (by decide)⟩

/-! ## C8: unknown operation codes are rejected without crashing -/

theorem foldl_loopStep_events (reqs : List (Request × Int)) :
    ∀ (s : ServerState) (evs : List Event),
      (reqs.foldl loopStep (s, evs)).1 = (reqs.foldl loopStep (s, [])).1 ∧
      (reqs.foldl loopStep (s, evs)).2 = evs ++ (reqs.foldl loopStep (s, [])).2 := by
  induction reqs with
  | nil => intro s evs; exact ⟨rfl, by simp⟩
  | cons rq reqs ih =>
      intro s evs
      rw [List.foldl_cons, List.foldl_cons]
      have hstep : ∀ evs0, loopStep (s, evs0) rq =
          ((recvRequest s rq.1 rq.2).1,
           evs0 ++ ((recvRequest s rq.1 rq.2).2.1 ++
             (match (recvRequest s rq.1 rq.2).2.2 with
              | .ok _ => []
              | .error e => [Event.reply (Resp.err e)]))) := by
        intro evs0
        simp only [loopStep, List.append_assoc]
      rw [hstep evs, hstep []]
      obtain ⟨ha1, ha2⟩ := ih (recvRequest s rq.1 rq.2).1
        (evs ++ ((recvRequest s rq.1 rq.2).2.1 ++ _))
      refine ⟨?_, ?_⟩
      · rw [ha1]
        obtain ⟨hb1, _⟩ := ih (recvRequest s rq.1 rq.2).1
          ([] ++ ((recvRequest s rq.1 rq.2).2.1 ++ _))
        rw [hb1]
      · rw [ha2]
        obtain ⟨_, hb2⟩ := ih (recvRequest s rq.1 rq.2).1
          ([] ++ ((recvRequest s rq.1 rq.2).2.1 ++ _))
        rw [hb2]
        simp

/-- C8 (with a spec-modelled driver).  A request whose operation code is
none of `run_fn_atomically`, `ping`, `get_server_meta`, `time` is rejected:
`recv_request` raises `ValueError` after selecting the namespace, no
namespace's document, log, timeline or pending set is touched (the whole
store is unchanged), and — per the spec-modelled main loop `serverLoop`,
which converts the propagated per-request error into an error reply — the
event loop continues and the remaining requests are served exactly as they
would be from the same store. -/
theorem recvRequest_unknown_cmd_rejected (s : ServerState) (req : Request)
    (stamp : Int) (rest : List (Request × Int))
    (hcmd : req.cmd ≠ Cmds.run_fn_atomically ∧ req.cmd ≠ Cmds.ping ∧
      req.cmd ≠ Cmds.get_server_meta ∧ req.cmd ≠ Cmds.time) :
    recvRequest s req stamp =
      ({ s with identity := req.identity, curNs := req.reqNs }, [],
        Except.error "Invalid command") ∧
    ({ s with identity := req.identity, curNs := req.reqNs } : ServerState).data
      = s.data ∧
    serverLoop s ((req, stamp) :: rest) =
      ((serverLoop { s with identity := req.identity, curNs := req.reqNs } rest).1,
       Event.reply (Resp.err "Invalid command") ::
         (serverLoop { s with identity := req.identity, curNs := req.reqNs } rest).2) := by
  have h1 : recvRequest s req stamp =
      ({ s with identity := req.identity, curNs := req.reqNs }, [],
        Except.error "Invalid command") := by
    simp only [recvRequest, if_neg hcmd.1, if_neg hcmd.2.1, if_neg hcmd.2.2.1,
      if_neg hcmd.2.2.2]
  refine ⟨h1, rfl, ?_⟩
  show ((req, stamp) :: rest).foldl loopStep (s, []) = _
  rw [List.foldl_cons]
  have hstep : loopStep (s, []) (req, stamp) =
      ({ s with identity := req.identity, curNs := req.reqNs },
       [Event.reply (Resp.err "Invalid command")]) := by
    simp only [loopStep, h1]
    rfl
  rw [hstep]
  obtain ⟨ha1, ha2⟩ := foldl_loopStep_events rest
    { s with identity := req.identity, curNs := req.reqNs }
    [Event.reply (Resp.err "Invalid command")]
  show (_, _) = (_, _)
  rw [Prod.ext_iff]
  exact ⟨ha1, by rw [ha2]; rfl⟩

/-- Witness for C8 at a concrete input: operation code 99 on a fresh
server, followed by one more (ping) request that is still served. -/
theorem recvRequest_unknown_cmd_rejected_witness :
    ((99 : Nat) ≠ Cmds.run_fn_atomically ∧ (99 : Nat) ≠ Cmds.ping ∧
      (99 : Nat) ≠ Cmds.get_server_meta ∧ (99 : Nat) ≠ Cmds.time) ∧
    serverLoop initState
        [({ identity := "c2", reqNs := "b", cmd := 99,
            fn := fun d => (d, Except.ok 0), info := 0 }, 3),
         ({ identity := "c3", reqNs := "b", cmd := Cmds.ping,
            fn := fun d => (d, Except.ok 0), info := 11 }, 4)] =
      ((serverLoop { initState with identity := "c2", curNs := "b" }
          [({ identity := "c3", reqNs := "b", cmd := Cmds.ping,
              fn := fun d => (d, Except.ok 0), info := 11 }, 4)]).1,
       Event.reply (Resp.err "Invalid command") ::
         (serverLoop { initState with identity := "c2", curNs := "b" }
            [({ identity := "c3", reqNs := "b", cmd := Cmds.ping,
                fn := fun d => (d, Except.ok 0), info := 11 }, 4)]).2) :=
  ⟨by decide,
    (recvRequest_unknown_cmd_rejected initState
      { identity := "c2", reqNs := "b", cmd := 99,
        fn := fun d => (d, Except.ok 0), info := 0 } 3
      [({ identity := "c3", reqNs := "b", cmd := Cmds.ping,
          fn := fun d => (d, Except.ok 0), info := 11 }, 4)]
      (by decide)).2.2⟩

/-! ## C10: read-only operations leave the whole store unchanged -/

/-- C10.  Handling a `ping`, `get_server_meta` or `time` request leaves
every namespace's document, timeline, history and pending set unchanged:
the store function is untouched (under the defaultdict-as-total-function
model, lazily materialising the request's namespace entry is unobservable —
a missing entry already reads as the empty default), and the request
succeeds with a reply. -/
theorem recvRequest_read_cmds_frame (s : ServerState) (req : Request)
    (stamp : Int)
    (hcmd : req.cmd = Cmds.ping ∨ req.cmd = Cmds.get_server_meta ∨
      req.cmd = Cmds.time) :
    ((recvRequest s req stamp).1).data = s.data ∧
    (recvRequest s req stamp).2.2 = Except.ok () := by
  rcases hcmd with h | h | h <;>
    simp [recvRequest, h, Cmds.run_fn_atomically, Cmds.ping,
      Cmds.get_server_meta, Cmds.time]

/-- Witness for C10 at a concrete input: a ping request. -/
theorem recvRequest_read_cmds_frame_witness :
    ((Cmds.ping = Cmds.ping ∨ Cmds.ping = Cmds.get_server_meta ∨
        Cmds.ping = Cmds.time)) ∧
    ((recvRequest initState
        { identity := "c2", reqNs := "b", cmd := Cmds.ping,
          fn := fun d => (d, Except.ok 0), info := 11 } 3).1).data =
      initState.data ∧
    (recvRequest initState
        { identity := "c2", reqNs := "b", cmd := Cmds.ping,
          fn := fun d => (d, Except.ok 0), info := 11 } 3).2.2 = Except.ok () :=
  ⟨Or.inl rfl,
    (recvRequest_read_cmds_frame initState
      { identity := "c2", reqNs := "b", cmd := Cmds.ping,
        fn := fun d => (d, Except.ok 0), info := 11 } 3 (Or.inl rfl))⟩
